import Mathlib

/-!
Verification development for the two maintenance scripts of the repository:

* `backend/scripts/cleanup-duplicates.py` — scans a DynamoDB table for CMS
  page records, groups them by `slug`, keeps the most recently created record
  of each group, deletes the rest together with the components that reference
  the deleted pages.
* `backend/scripts/migrate-hero-to-slides.py` — overwrites the `fields` list
  of one fixed hero component with a literal, and rewrites the `fields` list
  of every component whose `componentType` is `upcoming_events`.

The scripts are embedded shallowly: table items become Lean structures, the
scans become filters over a list of items, the delete/update loops become
pure functions producing the list of calls the script would issue.  Machine
details that the scripts do not depend on (AWS transport, JSON marshaling,
progress printing beyond the one message a claim mentions) are outside the
model, as the specification's scope section states.
-/

set_option linter.unusedVariables false

/-! ### Python string comparison

Python compares strings lexicographically by code point; the cleanup script
relies on this in `group.sort(key=lambda x: x["created"])`.  Lean's builtin
`String` order is iterator-based and does not reduce in the kernel, so the
same order is defined here structurally on the underlying character lists. -/

/-- Lexicographic code-point comparison of character lists, the order Python
uses on strings: a proper prefix is smaller, otherwise the first differing
character decides. -/
def charListLe : List Char → List Char → Bool
  | [], _ => true
  | _ :: _, [] => false
  | a :: as, b :: bs => if a = b then charListLe as bs else decide (a < b)

/-- Python string order `a <= b` as a proposition on Lean strings. -/
def strLe (a b : String) : Prop := charListLe a.data b.data = true

instance : DecidableRel strLe :=
  fun a b => inferInstanceAs (Decidable (charListLe a.data b.data = true))

theorem charListLe_refl (a : List Char) : charListLe a a = true := by
  induction a with
  | nil => rfl
  | cons x as ih => simp [charListLe, ih]

theorem charListLe_total (a : List Char) :
    ∀ b, charListLe a b = true ∨ charListLe b a = true := by
  induction a with
  | nil => intro b; exact Or.inl rfl
  | cons x as ih =>
    intro b
    cases b with
    | nil => exact Or.inr rfl
    | cons y bs =>
      by_cases hxy : x = y
      · subst hxy
        rcases ih bs with h | h
        · exact Or.inl (by simp [charListLe, h])
        · exact Or.inr (by simp [charListLe, h])
      · rcases lt_or_gt_of_ne hxy with h | h
        · exact Or.inl (by simp [charListLe, hxy, h])
        · exact Or.inr (by simp [charListLe, Ne.symm hxy, h])

theorem charListLe_trans (a : List Char) :
    ∀ b c, charListLe a b = true → charListLe b c = true →
      charListLe a c = true := by
  induction a with
  | nil => intro b c _ _; rfl
  | cons x as ih =>
    intro b c hab hbc
    cases b with
    | nil => simp [charListLe] at hab
    | cons y bs =>
      cases c with
      | nil => simp [charListLe] at hbc
      | cons z cs =>
        by_cases hxy : x = y
        · subst hxy
          by_cases hyz : x = z
          · subst hyz
            simp only [charListLe, if_pos rfl] at hab hbc ⊢
            exact ih bs cs hab hbc
          · simp only [charListLe, if_pos rfl, if_neg hyz] at hbc ⊢
            exact hbc
        · by_cases hyz : y = z
          · subst hyz
            simp only [charListLe, if_neg hxy] at hab ⊢
            exact hab
          · simp only [charListLe, if_neg hxy, if_neg hyz] at hab hbc
            have h1 : x < y := of_decide_eq_true hab
            have h2 : y < z := of_decide_eq_true hbc
            have hxz : x < z := lt_trans h1 h2
            simp [charListLe, ne_of_lt hxz, hxz]

/-! ### Data model of `cleanup-duplicates.py`

The table holds items keyed by a partition key `PK` and sort key `SK`.  The
page scan projects `PK, SK, slug, createdAt`; the component scan projects
`PK, SK, pageId`.  Attributes other than the key may be absent, which the
script turns into the empty string with `.get(..., {}).get("S", "")`. -/

/-- A table item as far as the cleanup script can observe it: both scans
project subsets of these attributes. -/
structure RawItem where
  pk : String
  sk : String
  slug : Option String
  createdAt : Option String
  pageId : Option String
deriving DecidableEq

/-- A page record as produced by the page scan (projection
`PK, SK, slug, createdAt`). -/
structure PageItem where
  pk : String
  sk : String
  slug : Option String
  createdAt : Option String
deriving DecidableEq

/-- A component record as produced by the component scan (projection
`PK, SK, pageId`). -/
structure CompItem where
  pk : String
  sk : String
  pageId : Option String
deriving DecidableEq

/-- `p.get("slug", {}).get("S", "")` — a missing slug becomes `""`. -/
def slugOf (p : PageItem) : String := p.slug.getD ""

/-- `p.get("createdAt", {}).get("S", "")` — a missing timestamp becomes `""`. -/
def createdOf (p : PageItem) : String := p.createdAt.getD ""

/-- The delete-item key of a page record. -/
def pageKey (p : PageItem) : String × String := (p.pk, p.sk)

/-- The delete-item key of a component record. -/
def compKey (c : CompItem) : String × String := (c.pk, c.sk)

/-- The key of a raw table item. -/
def rawKey (i : RawItem) : String × String := (i.pk, i.sk)

/-- DynamoDB's `begins_with(PK, :pk)` condition: the key starts with the
given pattern (stated on the character lists so that it evaluates in the
kernel). -/
def beginsWith (s pat : String) : Bool := pat.data.isPrefixOf s.data

/-- `scan_all("begins_with(PK, :pk)", {":pk": {"S": "CMS_PAGE#"}},
"PK, SK, slug, createdAt")`: all items whose partition key starts with
`CMS_PAGE#`, projected to the page attributes. -/
def scanPages (table : List RawItem) : List PageItem :=
  (table.filter (fun i => beginsWith i.pk "CMS_PAGE#")).map
    (fun i => ⟨i.pk, i.sk, i.slug, i.createdAt⟩)

/-- `scan_all("begins_with(PK, :pk)", {":pk": {"S": "CMS_COMPONENT#"}},
"PK, SK, pageId")`: all items whose partition key starts with
`CMS_COMPONENT#`, projected to the component attributes. -/
def scanComponents (table : List RawItem) : List CompItem :=
  (table.filter (fun i => beginsWith i.pk "CMS_COMPONENT#")).map
    (fun i => ⟨i.pk, i.sk, i.pageId⟩)

/-- Python comparison of two pages by their (defaulted) creation timestamps,
the key function of `group.sort(key=lambda x: x["created"])`. -/
def createdLe (a b : PageItem) : Prop := strLe (createdOf a) (createdOf b)

instance : DecidableRel createdLe :=
  fun a b => inferInstanceAs (Decidable (strLe (createdOf a) (createdOf b)))

instance : IsTotal PageItem createdLe :=
  ⟨fun a b => charListLe_total (createdOf a).data (createdOf b).data⟩

instance : IsTrans PageItem createdLe :=
  ⟨fun _ _ _ hab hbc => charListLe_trans _ _ _ hab hbc⟩

/-- The group `slug_groups[s]`: the scanned pages whose defaulted slug is
`s`, in scan order (`defaultdict(list)` appends in iteration order). -/
def slugGroup (pages : List PageItem) (s : String) : List PageItem :=
  pages.filter (fun p => decide (slugOf p = s))

/-- `group.sort(key=lambda x: x["created"])`: Python's `list.sort` is the
stable ascending sort by the key, and the stable ascending sort of a list is
unique, so it coincides with `List.insertionSort` by `createdLe` (Mathlib's
`orderedInsert` places an element before the later-scanned elements with an
equal key, which is exactly stability). -/
def sortByCreated (g : List PageItem) : List PageItem :=
  List.insertionSort createdLe g

/-- The keys of `slug_groups` in the order `sorted(slug_groups.items())`
visits them: each distinct defaulted slug once, in ascending Python string
order. -/
def slugKeys (pages : List PageItem) : List String :=
  List.insertionSort strLe (pages.map slugOf).dedup

/-- What the loop body `for old in group[:-1]` appends for one slug group:
nothing when the group is a singleton, otherwise all but the last element of
the group sorted by creation timestamp. -/
def groupContribution (pages : List PageItem) (s : String) : List PageItem :=
  let g := slugGroup pages s
  if 1 < g.length then (sortByCreated g).dropLast else []

/-- `pages_to_delete` after the loop over `sorted(slug_groups.items())`. -/
def pagesToDelete (pages : List PageItem) : List PageItem :=
  (slugKeys pages).flatMap (groupContribution pages)

/-- Python's `str.replace(old, new)` for a nonempty pattern `old`: scan left
to right, replace each non-overlapping occurrence, continue after it.  The
fuel argument (the length of the scanned list) makes the recursion
structural; it never runs out because each step consumes at least one
character when the pattern is nonempty. -/
def replaceAux (old new : List Char) : Nat → List Char → List Char
  | _, [] => []
  | 0, s => s
  | fuel + 1, c :: cs =>
    if old.isPrefixOf (c :: cs) ∧ old ≠ [] then
      new ++ replaceAux old new fuel ((c :: cs).drop old.length)
    else
      c :: replaceAux old new fuel cs

/-- Python's `s.replace(old, new)` on Lean strings. -/
def pythonReplace (s old new : String) : String :=
  ⟨replaceAux old.data new.data s.data.length s.data⟩

/-- `p["pk"].replace("CMS_PAGE#", "")` — the page identifier the script
derives from a page partition key. -/
def pageIdOfPk (pk : String) : String := pythonReplace pk "CMS_PAGE#" ""

/-- `page_ids_to_delete`: the identifiers derived from the partition keys of
the pages marked for deletion (the script stores them in a set and only ever
tests membership, so a list with list membership is an exact model). -/
def pageIdsToDelete (pages : List PageItem) : List String :=
  (pagesToDelete pages).map (fun p => pageIdOfPk p.pk)

/-- `components_to_delete`: the scanned components whose defaulted `pageId`
is among the identifiers of the pages marked for deletion. -/
def componentsToDelete (pages : List PageItem) (comps : List CompItem) :
    List CompItem :=
  comps.filter (fun c => decide ((c.pageId.getD "") ∈ pageIdsToDelete pages))

/-- Observable outcome of one run of the cleanup script: the exit code, the
delete-item calls in the order they are issued, whether the component scan
was reached, the stdout message the no-duplicates branch prints (other
progress lines are outside the model), and the keys whose delete call failed
(`delete_item` prints them to stderr and returns `False`). -/
structure CleanupRun where
  exitCode : Nat
  deleteCalls : List (String × String)
  componentScanDone : Bool
  printed : List String
  stderrFailed : List (String × String)
deriving DecidableEq

/-- The whole cleanup script, from the page scan to the final report, over a
table state and an oracle telling which delete calls succeed.  The script
ignores the boolean result of `delete_item`, so the oracle influences only
the stderr log. -/
def runCleanup (table : List RawItem) (deleteOk : String → String → Bool) :
    CleanupRun :=
  let pages := scanPages table
  let ptd := pagesToDelete pages
  if ptd.isEmpty then
    { exitCode := 0
      deleteCalls := []
      componentScanDone := false
      printed := ["No duplicate pages found!"]
      stderrFailed := [] }
  else
    let comps := scanComponents table
    let ctd := componentsToDelete pages comps
    let calls := ctd.map compKey ++ ptd.map pageKey
    { exitCode := 0
      deleteCalls := calls
      componentScanDone := true
      printed := []
      stderrFailed := calls.filter (fun k => !(deleteOk k.1 k.2)) }

/-- Effect of the issued delete-item calls on the table: delete-by-key
removes the item carrying that key. -/
def applyDeletes (table : List RawItem) (calls : List (String × String)) :
    List RawItem :=
  table.filter (fun i => decide (rawKey i ∉ calls))

/-! ### Data model of `migrate-hero-to-slides.py`

The migrator works on component records carrying a `componentType` tag and a
`fields` list of key/value entries, where a value may be a string, a Decimal
literal, a boolean, a list, or a nested object (the multi-language
`{en, hi}` dictionaries). -/

/-- A stored field value: the shapes occurring in the script's literals and
in the table's `fields` entries. -/
inductive Val where
  | str : String → Val
  | dec : String → Val
  | bool : Bool → Val
  | list : List Val → Val
  | obj : List (String × Val) → Val

/-- One entry of a component's `fields` list: a `key`/`value` dictionary. -/
structure CmsField where
  key : String
  value : Val

/-- A component record as the migrator's scan sees it. -/
structure CompRecord where
  pk : String
  sk : String
  componentType : Option String
  fields : List CmsField

/-- The fixed hero component identifier `714d9008-32f7-47e9-a9c3-325a9269c172`. -/
def heroId : String := "714d9008-32f7-47e9-a9c3-325a9269c172"

/-- The literal `new_fields` the script writes to the hero component:
a `slides` array with one slide, plus `overlayOpacity` and `enableParallax`. -/
def heroNewFields : List CmsField :=
  [ ⟨"slides", Val.list
      [ Val.obj
          [ ("imageUrl", Val.str "https://swami-rupeshwaranand-api-dev-content.s3.ap-south-1.amazonaws.com/images/1770448102554-fa232c8f.jpg")
          , ("heading", Val.obj
              [ ("en", Val.str "Sri Pitambara Peeth")
              , ("hi", Val.str "श्री पीताम्बरा पीठ") ])
          , ("subheading", Val.obj
              [ ("en", Val.str "A sacred abode of spiritual wisdom and divine grace")
              , ("hi", Val.str "आध्यात्मिक ज्ञान और दैवीय कृपा का पवित्र धाम") ])
          , ("ctaText", Val.obj
              [ ("en", Val.str "Learn More")
              , ("hi", Val.str "और जानें") ])
          , ("ctaLink", Val.str "/swamiji") ] ]⟩
  , ⟨"overlayOpacity", Val.dec "0.5"⟩
  , ⟨"enableParallax", Val.bool true⟩ ]

/-- The literal `events` entry the script appends for every
`upcoming_events` component. -/
def eventsField : CmsField :=
  ⟨"events", Val.list
    [ Val.obj
        [ ("title", Val.obj
            [ ("en", Val.str "Hanuman Chalisa Path")
            , ("hi", Val.str "हनुमान चालीसा पाठ") ])
        , ("description", Val.obj
            [ ("en", Val.str "Weekly recitation of Hanuman Chalisa")
            , ("hi", Val.str "साप्ताहिक हनुमान चालीसा पाठ") ])
        , ("date", Val.str "2025-03-01T07:00:00")
        , ("location", Val.obj
            [ ("en", Val.str "Main Temple Hall")
            , ("hi", Val.str "मुख्य मंदिर हॉल") ])
        , ("imageUrl", Val.str "")
        , ("link", Val.str "/events") ] ]⟩

/-- The body of the events migration loop: keep the first `title` entry (if
any), then the first `subtitle` entry (if any), then append the new `events`
literal — `next((f for f in existing_fields if f["key"] == "title"), None)`
is `List.find?`. -/
def newEventFields (existing : List CmsField) : List CmsField :=
  (existing.find? (fun f => f.key == "title")).toList
    ++ (existing.find? (fun f => f.key == "subtitle")).toList
    ++ [eventsField]

/-- One `update_item` call: the key pair and the `fields` value written by
`SET #f = :fields`. -/
structure UpdateCall where
  pk : String
  sk : String
  fields : List CmsField

/-- The unconditional hero overwrite: key `CMS_COMPONENT#<hero_id>` for both
`PK` and `SK`, writing the literal `new_fields`. -/
def heroUpdateCall : UpdateCall :=
  ⟨"CMS_COMPONENT#" ++ heroId, "CMS_COMPONENT#" ++ heroId, heroNewFields⟩

/-- All update calls the migrator issues, in order: first the unconditional
hero overwrite, then one rewrite per scanned component whose
`componentType` equals `upcoming_events`. -/
def migrateUpdates (table : List CompRecord) : List UpdateCall :=
  heroUpdateCall
    :: (table.filter (fun c => decide (c.componentType = some "upcoming_events"))).map
        (fun c => ⟨c.pk, c.sk, newEventFields c.fields⟩)

/-- Effect of one `update_item` call on the table: the record with the
call's key gets its `fields` attribute overwritten. -/
def applyUpdate (table : List CompRecord) (u : UpdateCall) : List CompRecord :=
  table.map (fun c =>
    if c.pk = u.pk ∧ c.sk = u.sk then
      { c with fields := u.fields }
    else c)

/-! ### Basic facts about the grouping and sorting machinery -/

theorem createdLe_refl (p : PageItem) : createdLe p p :=
  charListLe_refl (createdOf p).data

theorem mem_slugGroup {pages : List PageItem} {s : String} {p : PageItem} :
    p ∈ slugGroup pages s ↔ p ∈ pages ∧ slugOf p = s := by
  simp [slugGroup, List.mem_filter]

theorem sortByCreated_perm (g : List PageItem) :
    (sortByCreated g).Perm g :=
  List.perm_insertionSort createdLe g

theorem sortByCreated_pairwise (g : List PageItem) :
    (sortByCreated g).Pairwise createdLe :=
  List.sorted_insertionSort createdLe g

theorem length_sortByCreated (g : List PageItem) :
    (sortByCreated g).length = g.length :=
  (sortByCreated_perm g).length_eq

theorem mem_sortByCreated {g : List PageItem} {p : PageItem} :
    p ∈ sortByCreated g ↔ p ∈ g :=
  (sortByCreated_perm g).mem_iff

theorem mem_groupContribution {pages : List PageItem} {s : String} {p : PageItem}
    (h : p ∈ groupContribution pages s) : p ∈ slugGroup pages s := by
  unfold groupContribution at h
  by_cases hl : 1 < (slugGroup pages s).length
  · rw [if_pos hl] at h
    exact mem_sortByCreated.mp ((List.dropLast_sublist _).mem h)
  · rw [if_neg hl] at h
    exact absurd h (List.not_mem_nil p)

theorem slugOf_of_mem_groupContribution {pages : List PageItem} {s : String}
    {p : PageItem} (h : p ∈ groupContribution pages s) : slugOf p = s :=
  (mem_slugGroup.mp (mem_groupContribution h)).2

theorem nodup_slugKeys (pages : List PageItem) : (slugKeys pages).Nodup :=
  (List.perm_insertionSort strLe _).symm.nodup
    (List.nodup_dedup (pages.map slugOf))

theorem mem_slugKeys {pages : List PageItem} {s : String} :
    s ∈ slugKeys pages ↔ s ∈ pages.map slugOf := by
  unfold slugKeys
  rw [(List.perm_insertionSort strLe _).mem_iff, List.mem_dedup]

theorem mem_pagesToDelete {pages : List PageItem} {p : PageItem} :
    p ∈ pagesToDelete pages ↔
      ∃ s ∈ slugKeys pages, p ∈ groupContribution pages s := by
  simp [pagesToDelete, List.mem_flatMap]

theorem pagesToDelete_subset {pages : List PageItem} {p : PageItem}
    (h : p ∈ pagesToDelete pages) : p ∈ pages := by
  rcases mem_pagesToDelete.mp h with ⟨s, _, hc⟩
  exact (mem_slugGroup.mp (mem_groupContribution hc)).1

/-- A member of a list that is pairwise ordered by `createdLe` is below the
last element: the sorted group's last element carries the maximal timestamp. -/
theorem pairwise_createdLe_getLast :
    ∀ {l : List PageItem}, l.Pairwise createdLe → ∀ {r : PageItem},
      l.getLast? = some r → ∀ p ∈ l, createdLe p r := by
  intro l
  induction l with
  | nil => intro _ r hr; simp at hr
  | cons x t ih =>
    intro hpw r hr p hp
    cases t with
    | nil =>
      simp at hr hp
      subst hr; subst hp
      exact createdLe_refl p
    | cons y u =>
      rw [List.getLast?_cons_cons] at hr
      have hrt : r ∈ y :: u :=
        List.mem_of_mem_getLast? (by simpa using hr)
      rcases List.mem_cons.mp hp with hpx | hpt
      · subst hpx
        exact (List.pairwise_cons.mp hpw).1 r hrt
      · exact ih (List.pairwise_cons.mp hpw).2 hr p hpt

/-- If the slug group has at least two members, its deletion contribution is
everything but the last element of the stable sort, and that last element is
a member of maximal creation timestamp. -/
theorem groupContribution_split {pages : List PageItem} {s : String}
    (h : 1 < (slugGroup pages s).length) :
    ∃ r, (sortByCreated (slugGroup pages s)).getLast? = some r ∧
      sortByCreated (slugGroup pages s) = groupContribution pages s ++ [r] ∧
      r ∈ slugGroup pages s ∧
      ∀ p ∈ slugGroup pages s, createdLe p r := by
  set g := slugGroup pages s with hg
  have hne : sortByCreated g ≠ [] := by
    rw [← List.length_pos, length_sortByCreated]
    omega
  refine ⟨(sortByCreated g).getLast hne, List.getLast?_eq_getLast _ hne, ?_, ?_, ?_⟩
  · rw [groupContribution, ← hg, if_pos h]
    exact (List.dropLast_append_getLast hne).symm
  · exact mem_sortByCreated.mp (List.getLast_mem hne)
  · intro p hp
    exact pairwise_createdLe_getLast (sortByCreated_pairwise g)
      (List.getLast?_eq_getLast _ hne) p (mem_sortByCreated.mpr hp)

/-- Filtering the concatenated deletion list down to one slug recovers that
slug's contribution: the slug keys are distinct and every contributed record
carries its group's slug. -/
theorem flatMap_filter_single {α : Type} (f : String → List α) (g : α → String) :
    ∀ (L : List String), L.Nodup → (∀ s ∈ L, ∀ p ∈ f s, g p = s) →
      ∀ s, (L.flatMap f).filter (fun p => decide (g p = s)) =
        if s ∈ L then f s else [] := by
  intro L
  induction L with
  | nil => intro _ _ s; simp
  | cons a L ih =>
    intro hnd hf s
    have hnd' := List.nodup_cons.mp hnd
    rw [List.flatMap_cons, List.filter_append,
      ih hnd'.2 (fun s' hs' => hf s' (List.mem_cons_of_mem a hs')) s]
    by_cases hsa : s = a
    · subst hsa
      have h1 : (f s).filter (fun p => decide (g p = s)) = f s :=
        List.filter_eq_self.mpr (fun p hp => by
          simp [hf s (List.mem_cons_self s L) p hp])
      rw [h1, if_neg (fun hmem => hnd'.1 hmem), if_pos (List.mem_cons_self s L)]
      simp
    · have h1 : (f a).filter (fun p => decide (g p = s)) = [] :=
        List.filter_eq_nil_iff.mpr (fun p hp => by
          simp [hf a (List.mem_cons_self a L) p hp, Ne.symm ?_]
          exact fun h => hsa h.symm)
      rw [h1, List.nil_append]
      by_cases hsL : s ∈ L
      · rw [if_pos hsL, if_pos (List.mem_cons_of_mem a hsL)]
      · rw [if_neg hsL, if_neg (by
          intro hmem
          rcases List.mem_cons.mp hmem with h | h
          · exact hsa h
          · exact hsL h)]

theorem pagesToDelete_filter_slug (pages : List PageItem) (s : String) :
    (pagesToDelete pages).filter (fun p => decide (slugOf p = s)) =
      if s ∈ slugKeys pages then groupContribution pages s else [] :=
  flatMap_filter_single (groupContribution pages) slugOf (slugKeys pages)
    (nodup_slugKeys pages)
    (fun _ _ _ hp => slugOf_of_mem_groupContribution hp) s

/-! ### Which record of a group survives

The key pair `(PK, SK)` identifies an item of the table, so a scan returns
at most one record per key; the lemmas below assume that invariant. -/

theorem eq_of_pageKey_eq {pages : List PageItem}
    (hnd : (pages.map pageKey).Nodup) {p q : PageItem}
    (hp : p ∈ pages) (hq : q ∈ pages) (hk : pageKey p = pageKey q) : p = q :=
  List.inj_on_of_nodup_map hnd hp hq hk

theorem mem_ptd_map_key_iff {pages : List PageItem}
    (hnd : (pages.map pageKey).Nodup) {p : PageItem} (hp : p ∈ pages) :
    pageKey p ∈ (pagesToDelete pages).map pageKey ↔ p ∈ pagesToDelete pages := by
  constructor
  · intro h
    rcases List.mem_map.mp h with ⟨q, hq, hk⟩
    rwa [eq_of_pageKey_eq hnd hp (pagesToDelete_subset hq) hk.symm]
  · intro h
    exact List.mem_map.mpr ⟨p, h, rfl⟩

/-- For a member of a slug group, being marked for deletion is the same as
appearing in that one group's contribution. -/
theorem mem_ptd_iff_contribution {pages : List PageItem} {s : String}
    {p : PageItem} (hp : p ∈ slugGroup pages s) :
    p ∈ pagesToDelete pages ↔ p ∈ groupContribution pages s := by
  constructor
  · intro h
    rcases mem_pagesToDelete.mp h with ⟨t, _, hc⟩
    have ht : t = s := by
      rw [← slugOf_of_mem_groupContribution hc]
      exact (mem_slugGroup.mp hp).2
    rwa [ht] at hc
  · intro h
    refine mem_pagesToDelete.mpr ⟨s, ?_, h⟩
    exact mem_slugKeys.mpr (List.mem_map.mpr
      ⟨p, (mem_slugGroup.mp hp).1, (mem_slugGroup.mp hp).2⟩)

/-- Master lemma: a nonempty slug group retains exactly one record, and that
record has the maximal creation timestamp of the group. -/
theorem retained_group_eq {pages : List PageItem}
    (hnd : (pages.map pageKey).Nodup) (s : String)
    (hne : slugGroup pages s ≠ []) :
    ∃ r, r ∈ slugGroup pages s ∧ (∀ p ∈ slugGroup pages s, createdLe p r) ∧
      (slugGroup pages s).filter
        (fun p => decide (p ∉ pagesToDelete pages)) = [r] := by
  have hgnd : (slugGroup pages s).Nodup :=
    (hnd.of_map pageKey).filter _
  have hfc : (slugGroup pages s).filter (fun p => decide (p ∉ pagesToDelete pages)) =
      (slugGroup pages s).filter (fun p => decide (p ∉ groupContribution pages s)) :=
    List.filter_congr (fun p hp => by
      simp [mem_ptd_iff_contribution hp])
  by_cases hl : 1 < (slugGroup pages s).length
  · rcases groupContribution_split hl with ⟨r, _, hsplit, hrg, hmax⟩
    refine ⟨r, hrg, hmax, ?_⟩
    have hsortnd : (sortByCreated (slugGroup pages s)).Nodup :=
      (sortByCreated_perm _).symm.nodup hgnd
    have hrnotin : r ∉ groupContribution pages s := by
      intro hmem
      rw [hsplit] at hsortnd
      exact (List.disjoint_of_nodup_append hsortnd) hmem (List.mem_singleton.mpr rfl)
    have hperm : ((slugGroup pages s).filter
        (fun p => decide (p ∉ groupContribution pages s))).Perm
        ((sortByCreated (slugGroup pages s)).filter
          (fun p => decide (p ∉ groupContribution pages s))) :=
      (sortByCreated_perm _).symm.filter _
    rw [hfc]
    rw [hsplit, List.filter_append] at hperm
    have h1 : (groupContribution pages s).filter
        (fun p => decide (p ∉ groupContribution pages s)) = [] :=
      List.filter_eq_nil_iff.mpr (fun p hp => by simp [hp])
    have h2 : [r].filter (fun p => decide (p ∉ groupContribution pages s)) = [r] :=
      List.filter_eq_self.mpr (fun p hp => by
        rw [List.mem_singleton.mp hp]; simp [hrnotin])
    rw [h1, h2, List.nil_append] at hperm
    exact List.perm_singleton.mp hperm
  · rcases List.length_eq_one.mp (by
        have := List.length_pos.mpr hne
        omega : (slugGroup pages s).length = 1) with ⟨r, hr⟩
    refine ⟨r, by rw [hr]; exact List.mem_singleton.mpr rfl, ?_, ?_⟩
    · intro p hp
      rw [hr, List.mem_singleton] at hp
      subst hp
      exact createdLe_refl p
    · have hcontrib : groupContribution pages s = [] := by
        rw [groupContribution, if_neg hl]
      rw [hfc, hr]
      exact List.filter_eq_self.mpr (fun p hp => by
        rw [List.mem_singleton.mp hp]; simp [hcontrib])

/-! ### How the issued calls relate back to the table -/

/-- When nothing is marked for deletion, no component is an orphan: the
identifier set is empty. -/
theorem componentsToDelete_of_ptd_nil {pages : List PageItem}
    (h : pagesToDelete pages = []) (comps : List CompItem) :
    componentsToDelete pages comps = [] :=
  List.filter_eq_nil_iff.mpr (fun c _ => by
    simp [pageIdsToDelete, h])

/-- The delete calls of a run: all orphaned-component keys first, then all
duplicate-page keys (in the branch with no duplicates both lists are empty). -/
theorem runCleanup_calls_eq (table : List RawItem)
    (ok : String → String → Bool) :
    (runCleanup table ok).deleteCalls =
      (componentsToDelete (scanPages table) (scanComponents table)).map compKey ++
        (pagesToDelete (scanPages table)).map pageKey := by
  simp only [runCleanup]
  split
  · rename_i h
    rw [componentsToDelete_of_ptd_nil (List.isEmpty_iff.mp h),
      List.isEmpty_iff.mp h]
    rfl
  · rfl

/-- The script never exits nonzero in the delete phase: the only
`sys.exit(1)` sits in `aws_cmd`, which the delete loop does not use. -/
theorem runCleanup_exitCode (table : List RawItem)
    (ok : String → String → Bool) : (runCleanup table ok).exitCode = 0 := by
  simp only [runCleanup]
  split <;> rfl

/-- The run taken when the deletion set comes out empty. -/
theorem runCleanup_of_ptd_nil (table : List RawItem)
    (ok : String → String → Bool)
    (h : pagesToDelete (scanPages table) = []) :
    runCleanup table ok =
      ⟨0, [], false, ["No duplicate pages found!"], []⟩ := by
  simp only [runCleanup]
  rw [if_pos (List.isEmpty_iff.mpr h)]

/-- Applying the delete calls to the table commutes with the page scan. -/
theorem scanPages_applyDeletes (table : List RawItem)
    (calls : List (String × String)) :
    scanPages (applyDeletes table calls) =
      (scanPages table).filter (fun p => decide (pageKey p ∉ calls)) := by
  unfold scanPages applyDeletes
  rw [List.filter_comm, List.filter_map]
  rfl

/-- Key uniqueness survives the page scan: the scan filters and projects,
and the projection keeps the key pair. -/
theorem nodup_pageKey_scanPages {table : List RawItem}
    (hnd : (table.map rawKey).Nodup) :
    ((scanPages table).map pageKey).Nodup := by
  unfold scanPages
  rw [List.map_map]
  exact List.Nodup.sublist
    (List.Sublist.map rawKey (List.filter_sublist table)) hnd

theorem slugGroup_filter (pages : List PageItem) (q : PageItem → Bool)
    (s : String) :
    slugGroup (pages.filter q) s = (slugGroup pages s).filter q := by
  unfold slugGroup
  rw [List.filter_comm]

/-- Core of idempotence: delete at least everything the run marked, and no
slug group of the remaining pages has two members any more. -/
theorem pagesToDelete_after_deletion (pages : List PageItem)
    (hnd : (pages.map pageKey).Nodup) (calls : List (String × String))
    (hsub : ∀ p ∈ pagesToDelete pages, pageKey p ∈ calls) :
    pagesToDelete (pages.filter (fun p => decide (pageKey p ∉ calls))) = [] := by
  have hqw : ∀ p ∈ pages, decide (pageKey p ∉ calls) = true →
      decide (p ∉ pagesToDelete pages) = true := by
    intro p _ hq
    simp only [decide_eq_true_eq] at hq ⊢
    exact fun hmem => hq (hsub p hmem)
  have hlen : ∀ s,
      (slugGroup (pages.filter (fun p => decide (pageKey p ∉ calls))) s).length ≤ 1 := by
    intro s
    rw [slugGroup_filter]
    by_cases hg : slugGroup pages s = []
    · simp [hg]
    · rcases retained_group_eq hnd s hg with ⟨r, _, _, hw⟩
      have hC : (slugGroup pages s).filter (fun p => decide (pageKey p ∉ calls)) =
          ((slugGroup pages s).filter (fun p => decide (p ∉ pagesToDelete pages))).filter
            (fun p => decide (pageKey p ∉ calls)) := by
        rw [List.filter_filter]
        exact List.filter_congr (fun a ha => by
          cases hqa : decide (pageKey a ∉ calls)
          · simp [hqa]
          · simp [hqa, hqw a (mem_slugGroup.mp ha).1 hqa])
      rw [hC, hw]
      exact le_trans (List.length_filter_le _ [r]) (by simp)
  rw [List.eq_nil_iff_forall_not_mem]
  intro p hp
  rcases mem_pagesToDelete.mp hp with ⟨s, _, hc⟩
  unfold groupContribution at hc
  by_cases hl : 1 <
      (slugGroup (pages.filter (fun p => decide (pageKey p ∉ calls))) s).length
  · exact absurd (hlen s) (by omega)
  · rw [if_neg hl] at hc
    exact absurd hc (List.not_mem_nil p)

/-! ### Counting the retained pages -/

/-- Every slug that occurs among the scanned pages still occurs among the
retained pages. -/
theorem retained_mem_of_slug {pages : List PageItem}
    (hnd : (pages.map pageKey).Nodup) {s : String}
    (hs : s ∈ pages.map slugOf) :
    ∃ r ∈ pages.filter (fun p => decide (p ∉ pagesToDelete pages)),
      slugOf r = s := by
  rcases List.mem_map.mp hs with ⟨p0, hp0, hslug⟩
  have hg : slugGroup pages s ≠ [] :=
    List.ne_nil_of_mem (mem_slugGroup.mpr ⟨hp0, hslug⟩)
  rcases retained_group_eq hnd s hg with ⟨r, _, _, hw⟩
  have hr : r ∈ (slugGroup pages s).filter
      (fun p => decide (p ∉ pagesToDelete pages)) := by
    rw [hw]; exact List.mem_singleton.mpr rfl
  rcases List.mem_filter.mp hr with ⟨hrg, hrw⟩
  exact ⟨r, List.mem_filter.mpr ⟨(mem_slugGroup.mp hrg).1, hrw⟩,
    (mem_slugGroup.mp hrg).2⟩

/-- Two retained pages with the same slug are the same record: each group
retains at most one member. -/
theorem retained_slug_injective {pages : List PageItem}
    (hnd : (pages.map pageKey).Nodup) {x y : PageItem}
    (hx : x ∈ pages.filter (fun p => decide (p ∉ pagesToDelete pages)))
    (hy : y ∈ pages.filter (fun p => decide (p ∉ pagesToDelete pages)))
    (hxy : slugOf x = slugOf y) : x = y := by
  rcases List.mem_filter.mp hx with ⟨hxp, hxw⟩
  rcases List.mem_filter.mp hy with ⟨hyp, hyw⟩
  have hxg : x ∈ slugGroup pages (slugOf x) := mem_slugGroup.mpr ⟨hxp, rfl⟩
  have hyg : y ∈ slugGroup pages (slugOf x) := mem_slugGroup.mpr ⟨hyp, hxy.symm⟩
  rcases retained_group_eq hnd (slugOf x) (List.ne_nil_of_mem hxg) with
    ⟨r, _, _, hw⟩
  have h1 : x ∈ [r] := by rw [← hw]; exact List.mem_filter.mpr ⟨hxg, hxw⟩
  have h2 : y ∈ [r] := by rw [← hw]; exact List.mem_filter.mpr ⟨hyg, hyw⟩
  rw [List.mem_singleton.mp h1, List.mem_singleton.mp h2]

/-! ### Claim theorems for `cleanup-duplicates.py` -/

/-- C1: For every group of page records sharing the same slug value, the
deduplicator retains exactly one record — the one with the maximum
`createdAt` timestamp, ties resolved by the stable sort — and marks every
other member of the group for deletion; groups with a single member
contribute nothing to the deletion set. -/
theorem dedup_group_keeps_latest (pages : List PageItem) (s : String) :
    ((slugGroup pages s).length ≤ 1 →
      (pagesToDelete pages).filter (fun p => decide (slugOf p = s)) = []) ∧
    (1 < (slugGroup pages s).length →
      ∃ r, (sortByCreated (slugGroup pages s)).getLast? = some r ∧
        r ∈ slugGroup pages s ∧
        (∀ p ∈ slugGroup pages s, createdLe p r) ∧
        (pagesToDelete pages).filter (fun p => decide (slugOf p = s)) =
          (sortByCreated (slugGroup pages s)).dropLast ∧
        ((pagesToDelete pages).filter
            (fun p => decide (slugOf p = s))).length + 1 =
          (slugGroup pages s).length) := by
  constructor
  · intro hle
    rw [pagesToDelete_filter_slug]
    split
    · rw [groupContribution, if_neg (by omega)]
    · rfl
  · intro hlt
    rcases groupContribution_split hlt with ⟨r, hlast, hsplit, hrg, hmax⟩
    have hkey : s ∈ slugKeys pages := by
      have hne : slugGroup pages s ≠ [] := by
        rw [← List.length_pos]; omega
      rcases List.exists_mem_of_ne_nil _ hne with ⟨p0, hp0⟩
      exact mem_slugKeys.mpr
        (List.mem_map.mpr ⟨p0, (mem_slugGroup.mp hp0).1, (mem_slugGroup.mp hp0).2⟩)
    have hfilter : (pagesToDelete pages).filter
        (fun p => decide (slugOf p = s)) = groupContribution pages s := by
      rw [pagesToDelete_filter_slug, if_pos hkey]
    refine ⟨r, hlast, hrg, hmax, ?_, ?_⟩
    · rw [hfilter, groupContribution, if_pos hlt]
    · rw [hfilter, groupContribution, if_pos hlt, List.length_dropLast,
        length_sortByCreated]
      omega

/-- C1 witness: on the spec's own scenario — pages `a@t1`, `a@t2`, `b@t1`
with `t1 < t2` — the slug `b` group contributes nothing, and the slug `a`
group keeps its maximal record and deletes the rest. -/
theorem dedup_group_keeps_latest_witness :
    ((pagesToDelete
        [⟨"CMS_PAGE#a1", "CMS_PAGE#a1", some "a", some "t1"⟩,
         ⟨"CMS_PAGE#a2", "CMS_PAGE#a2", some "a", some "t2"⟩,
         ⟨"CMS_PAGE#b1", "CMS_PAGE#b1", some "b", some "t1"⟩]).filter
      (fun p => decide (slugOf p = "b")) = []) ∧
    (∃ r, (sortByCreated (slugGroup
        [⟨"CMS_PAGE#a1", "CMS_PAGE#a1", some "a", some "t1"⟩,
         ⟨"CMS_PAGE#a2", "CMS_PAGE#a2", some "a", some "t2"⟩,
         ⟨"CMS_PAGE#b1", "CMS_PAGE#b1", some "b", some "t1"⟩] "a")).getLast? = some r ∧
      r ∈ slugGroup
        [⟨"CMS_PAGE#a1", "CMS_PAGE#a1", some "a", some "t1"⟩,
         ⟨"CMS_PAGE#a2", "CMS_PAGE#a2", some "a", some "t2"⟩,
         ⟨"CMS_PAGE#b1", "CMS_PAGE#b1", some "b", some "t1"⟩] "a" ∧
      (∀ p ∈ slugGroup
        [⟨"CMS_PAGE#a1", "CMS_PAGE#a1", some "a", some "t1"⟩,
         ⟨"CMS_PAGE#a2", "CMS_PAGE#a2", some "a", some "t2"⟩,
         ⟨"CMS_PAGE#b1", "CMS_PAGE#b1", some "b", some "t1"⟩] "a", createdLe p r) ∧
      (pagesToDelete
        [⟨"CMS_PAGE#a1", "CMS_PAGE#a1", some "a", some "t1"⟩,
         ⟨"CMS_PAGE#a2", "CMS_PAGE#a2", some "a", some "t2"⟩,
         ⟨"CMS_PAGE#b1", "CMS_PAGE#b1", some "b", some "t1"⟩]).filter
          (fun p => decide (slugOf p = "a")) =
        (sortByCreated (slugGroup
          [⟨"CMS_PAGE#a1", "CMS_PAGE#a1", some "a", some "t1"⟩,
           ⟨"CMS_PAGE#a2", "CMS_PAGE#a2", some "a", some "t2"⟩,
           ⟨"CMS_PAGE#b1", "CMS_PAGE#b1", some "b", some "t1"⟩] "a")).dropLast ∧
      ((pagesToDelete
        [⟨"CMS_PAGE#a1", "CMS_PAGE#a1", some "a", some "t1"⟩,
         ⟨"CMS_PAGE#a2", "CMS_PAGE#a2", some "a", some "t2"⟩,
         ⟨"CMS_PAGE#b1", "CMS_PAGE#b1", some "b", some "t1"⟩]).filter
          (fun p => decide (slugOf p = "a"))).length + 1 =
        (slugGroup
          [⟨"CMS_PAGE#a1", "CMS_PAGE#a1", some "a", some "t1"⟩,
           ⟨"CMS_PAGE#a2", "CMS_PAGE#a2", some "a", some "t2"⟩,
           ⟨"CMS_PAGE#b1", "CMS_PAGE#b1", some "b", some "t1"⟩] "a").length) :=
  ⟨(dedup_group_keeps_latest _ "b").1 (by decide),
   (dedup_group_keeps_latest _ "a").2 (by decide)⟩

/-- C10: the deduplicator never empties a slug group — every slug present
among the scanned pages has a retained representative, and (keys being
unique, as a table scan guarantees) the number of retained pages equals the
number of distinct slug values. -/
theorem dedup_retains_each_slug (pages : List PageItem)
    (hnd : (pages.map pageKey).Nodup) :
    (∀ s ∈ pages.map slugOf,
        ∃ p ∈ pages.filter (fun p => decide (p ∉ pagesToDelete pages)),
          slugOf p = s) ∧
    (pages.filter (fun p => decide (p ∉ pagesToDelete pages))).length =
      (pages.map slugOf).dedup.length := by
  refine ⟨fun s hs => retained_mem_of_slug hnd hs, ?_⟩
  have hnodup : ((pages.filter
      (fun p => decide (p ∉ pagesToDelete pages))).map slugOf).Nodup :=
    List.Nodup.map_on
      (fun x hx y hy hxy => retained_slug_injective hnd hx hy hxy)
      ((hnd.of_map pageKey).filter _)
  have hperm : ((pages.filter
      (fun p => decide (p ∉ pagesToDelete pages))).map slugOf).Perm
      ((pages.map slugOf).dedup) := by
    rw [List.perm_ext_iff_of_nodup hnodup (List.nodup_dedup _)]
    intro a
    rw [List.mem_dedup]
    constructor
    · intro ha
      rcases List.mem_map.mp ha with ⟨p, hp, hslug⟩
      exact List.mem_map.mpr ⟨p, (List.mem_filter.mp hp).1, hslug⟩
    · intro ha
      rcases retained_mem_of_slug hnd ha with ⟨r, hr, hslug⟩
      exact List.mem_map.mpr ⟨r, hr, hslug⟩
  have := hperm.length_eq
  rwa [List.length_map] at this

/-- C10 witness: three pages over two slugs, one duplicated — two pages are
retained, one per distinct slug. -/
theorem dedup_retains_each_slug_witness :
    (∀ s ∈ ([⟨"CMS_PAGE#a1", "CMS_PAGE#a1", some "a", some "t1"⟩,
         ⟨"CMS_PAGE#a2", "CMS_PAGE#a2", some "a", some "t2"⟩,
         ⟨"CMS_PAGE#b1", "CMS_PAGE#b1", some "b", some "t1"⟩] :
           List PageItem).map slugOf,
        ∃ p ∈ ([⟨"CMS_PAGE#a1", "CMS_PAGE#a1", some "a", some "t1"⟩,
         ⟨"CMS_PAGE#a2", "CMS_PAGE#a2", some "a", some "t2"⟩,
         ⟨"CMS_PAGE#b1", "CMS_PAGE#b1", some "b", some "t1"⟩] :
           List PageItem).filter
            (fun p => decide (p ∉ pagesToDelete
              [⟨"CMS_PAGE#a1", "CMS_PAGE#a1", some "a", some "t1"⟩,
               ⟨"CMS_PAGE#a2", "CMS_PAGE#a2", some "a", some "t2"⟩,
               ⟨"CMS_PAGE#b1", "CMS_PAGE#b1", some "b", some "t1"⟩])),
          slugOf p = s) ∧
    (([⟨"CMS_PAGE#a1", "CMS_PAGE#a1", some "a", some "t1"⟩,
         ⟨"CMS_PAGE#a2", "CMS_PAGE#a2", some "a", some "t2"⟩,
         ⟨"CMS_PAGE#b1", "CMS_PAGE#b1", some "b", some "t1"⟩] :
           List PageItem).filter
        (fun p => decide (p ∉ pagesToDelete
          [⟨"CMS_PAGE#a1", "CMS_PAGE#a1", some "a", some "t1"⟩,
           ⟨"CMS_PAGE#a2", "CMS_PAGE#a2", some "a", some "t2"⟩,
           ⟨"CMS_PAGE#b1", "CMS_PAGE#b1", some "b", some "t1"⟩]))).length =
      (([⟨"CMS_PAGE#a1", "CMS_PAGE#a1", some "a", some "t1"⟩,
         ⟨"CMS_PAGE#a2", "CMS_PAGE#a2", some "a", some "t2"⟩,
         ⟨"CMS_PAGE#b1", "CMS_PAGE#b1", some "b", some "t1"⟩] :
           List PageItem).map slugOf).dedup.length :=
  dedup_retains_each_slug _ (by decide)

/-- C2 (amended): a component is marked as an orphan exactly when it was
scanned and its defaulted `pageId` equals the identifier the script derives
from some deleted page's partition key; a component whose `pageId` matches
no deleted page's identifier is never marked.  (The unamended claim also
promised that a component referencing a retained page is never marked; that
fails when a retained and a deleted page share a partition key, see the
counterexample.) -/
theorem comp_orphan_iff (pages : List PageItem) (comps : List CompItem)
    (c : CompItem) :
    (c ∈ componentsToDelete pages comps ↔
      c ∈ comps ∧ (c.pageId.getD "") ∈ pageIdsToDelete pages) ∧
    ((c.pageId.getD "") ∉ pageIdsToDelete pages →
      c ∉ componentsToDelete pages comps) := by
  constructor
  · simp [componentsToDelete, List.mem_filter]
  · intro h hmem
    rcases List.mem_filter.mp hmem with ⟨_, hdec⟩
    exact h (of_decide_eq_true hdec)

/-- C2 witness: a component referencing only the identifier of a page that
is retained (and shared with no deleted page) is not marked for deletion. -/
theorem comp_orphan_iff_witness :
    (⟨"CMS_COMPONENT#c", "CMS_COMPONENT#c", some "b1"⟩ : CompItem) ∉
      componentsToDelete
        [⟨"CMS_PAGE#a1", "CMS_PAGE#a1", some "a", some "t1"⟩,
         ⟨"CMS_PAGE#a2", "CMS_PAGE#a2", some "a", some "t2"⟩,
         ⟨"CMS_PAGE#b1", "CMS_PAGE#b1", some "b", some "t1"⟩]
        [⟨"CMS_COMPONENT#c", "CMS_COMPONENT#c", some "b1"⟩] :=
  (comp_orphan_iff _ _ _).2 (by decide)

/-- C2 counterexample: two page records share the partition key
`CMS_PAGE#x` under different sort keys and the same slug; the older one is
deleted, the newer one retained, yet both derive the identifier `x`.  A
component whose `pageId` references the retained page is nevertheless put in
the orphan-deletion set — the unamended claim's "never appears" clause is
false. -/
theorem comp_orphan_retained_collision_cex :
    (⟨"CMS_PAGE#x", "CMS_PAGE#x-new", some "home", some "2024-01-02"⟩ : PageItem) ∈
      ([⟨"CMS_PAGE#x", "CMS_PAGE#x-old", some "home", some "2024-01-01"⟩,
        ⟨"CMS_PAGE#x", "CMS_PAGE#x-new", some "home", some "2024-01-02"⟩] :
          List PageItem) ∧
    (⟨"CMS_PAGE#x", "CMS_PAGE#x-new", some "home", some "2024-01-02"⟩ : PageItem) ∉
      pagesToDelete
        [⟨"CMS_PAGE#x", "CMS_PAGE#x-old", some "home", some "2024-01-01"⟩,
         ⟨"CMS_PAGE#x", "CMS_PAGE#x-new", some "home", some "2024-01-02"⟩] ∧
    pageIdOfPk "CMS_PAGE#x" = "x" ∧
    (⟨"CMS_COMPONENT#y", "CMS_COMPONENT#y", some "x"⟩ : CompItem) ∈
      componentsToDelete
        [⟨"CMS_PAGE#x", "CMS_PAGE#x-old", some "home", some "2024-01-01"⟩,
         ⟨"CMS_PAGE#x", "CMS_PAGE#x-new", some "home", some "2024-01-02"⟩]
        [⟨"CMS_COMPONENT#y", "CMS_COMPONENT#y", some "x"⟩] := by
  decide

/-- C3 (amended): a failed delete call does not abort the run — the set of
delete calls issued does not depend on which calls fail, failures are only
reported (modelled by the stderr log), and the process still exits with
code 0. -/
theorem delete_failure_logged_and_continues (table : List RawItem)
    (ok : String → String → Bool) :
    (runCleanup table ok).exitCode = 0 ∧
    (runCleanup table ok).deleteCalls =
      (runCleanup table (fun _ _ => true)).deleteCalls ∧
    (runCleanup table ok).stderrFailed =
      (runCleanup table ok).deleteCalls.filter (fun k => !(ok k.1 k.2)) := by
  refine ⟨runCleanup_exitCode _ _, ?_, ?_⟩
  · rw [runCleanup_calls_eq, runCleanup_calls_eq]
  · simp only [runCleanup]
    split
    · rfl
    · rfl

/-- C3 counterexample: with one orphaned component and one duplicate page,
an oracle failing every delete call still sees both calls issued and exit
code 0 — the process neither exits 1 nor stops deleting after the first
failure. -/
theorem delete_failure_no_abort_cex :
    (runCleanup
        [⟨"CMS_PAGE#a1", "CMS_PAGE#a1", some "a", some "t1", none⟩,
         ⟨"CMS_PAGE#a2", "CMS_PAGE#a2", some "a", some "t2", none⟩,
         ⟨"CMS_COMPONENT#c", "CMS_COMPONENT#c", none, none, some "a1"⟩]
        (fun _ _ => false)).deleteCalls =
      [("CMS_COMPONENT#c", "CMS_COMPONENT#c"), ("CMS_PAGE#a1", "CMS_PAGE#a1")] ∧
    (runCleanup
        [⟨"CMS_PAGE#a1", "CMS_PAGE#a1", some "a", some "t1", none⟩,
         ⟨"CMS_PAGE#a2", "CMS_PAGE#a2", some "a", some "t2", none⟩,
         ⟨"CMS_COMPONENT#c", "CMS_COMPONENT#c", none, none, some "a1"⟩]
        (fun _ _ => false)).stderrFailed =
      [("CMS_COMPONENT#c", "CMS_COMPONENT#c"), ("CMS_PAGE#a1", "CMS_PAGE#a1")] ∧
    (runCleanup
        [⟨"CMS_PAGE#a1", "CMS_PAGE#a1", some "a", some "t1", none⟩,
         ⟨"CMS_PAGE#a2", "CMS_PAGE#a2", some "a", some "t2", none⟩,
         ⟨"CMS_COMPONENT#c", "CMS_COMPONENT#c", none, none, some "a1"⟩]
        (fun _ _ => false)).exitCode = 0 := by
  decide

/-- C5: the deduplicator is idempotent.  After a first run's delete calls
are applied to a table (whose scan, as DynamoDB guarantees, holds one item
per key pair), a second run computes an empty deletion set, issues no delete
calls, and exits 0. -/
theorem dedup_idempotent (table : List RawItem)
    (ok ok2 : String → String → Bool)
    (hnd : (table.map rawKey).Nodup) :
    pagesToDelete (scanPages
      (applyDeletes table (runCleanup table ok).deleteCalls)) = [] ∧
    (runCleanup (applyDeletes table (runCleanup table ok).deleteCalls)
      ok2).deleteCalls = [] ∧
    (runCleanup (applyDeletes table (runCleanup table ok).deleteCalls)
      ok2).exitCode = 0 := by
  have hsub : ∀ p ∈ pagesToDelete (scanPages table),
      pageKey p ∈ (runCleanup table ok).deleteCalls := by
    intro p hp
    rw [runCleanup_calls_eq]
    exact List.mem_append_right _ (List.mem_map.mpr ⟨p, hp, rfl⟩)
  have h1 : pagesToDelete (scanPages
      (applyDeletes table (runCleanup table ok).deleteCalls)) = [] := by
    rw [scanPages_applyDeletes]
    exact pagesToDelete_after_deletion _ (nodup_pageKey_scanPages hnd) _ hsub
  refine ⟨h1, ?_, runCleanup_exitCode _ _⟩
  rw [runCleanup_of_ptd_nil _ _ h1]

/-- C5 witness: a table with a duplicated slug and one referencing
component; the second run after the first run's deletions issues nothing. -/
theorem dedup_idempotent_witness :
    pagesToDelete (scanPages
      (applyDeletes
        [⟨"CMS_PAGE#a1", "CMS_PAGE#a1", some "a", some "t1", none⟩,
         ⟨"CMS_PAGE#a2", "CMS_PAGE#a2", some "a", some "t2", none⟩,
         ⟨"CMS_COMPONENT#c", "CMS_COMPONENT#c", none, none, some "a1"⟩]
        (runCleanup
          [⟨"CMS_PAGE#a1", "CMS_PAGE#a1", some "a", some "t1", none⟩,
           ⟨"CMS_PAGE#a2", "CMS_PAGE#a2", some "a", some "t2", none⟩,
           ⟨"CMS_COMPONENT#c", "CMS_COMPONENT#c", none, none, some "a1"⟩]
          (fun _ _ => true)).deleteCalls)) = [] ∧
    (runCleanup (applyDeletes
        [⟨"CMS_PAGE#a1", "CMS_PAGE#a1", some "a", some "t1", none⟩,
         ⟨"CMS_PAGE#a2", "CMS_PAGE#a2", some "a", some "t2", none⟩,
         ⟨"CMS_COMPONENT#c", "CMS_COMPONENT#c", none, none, some "a1"⟩]
        (runCleanup
          [⟨"CMS_PAGE#a1", "CMS_PAGE#a1", some "a", some "t1", none⟩,
           ⟨"CMS_PAGE#a2", "CMS_PAGE#a2", some "a", some "t2", none⟩,
           ⟨"CMS_COMPONENT#c", "CMS_COMPONENT#c", none, none, some "a1"⟩]
          (fun _ _ => true)).deleteCalls)
      (fun _ _ => true)).deleteCalls = [] ∧
    (runCleanup (applyDeletes
        [⟨"CMS_PAGE#a1", "CMS_PAGE#a1", some "a", some "t1", none⟩,
         ⟨"CMS_PAGE#a2", "CMS_PAGE#a2", some "a", some "t2", none⟩,
         ⟨"CMS_COMPONENT#c", "CMS_COMPONENT#c", none, none, some "a1"⟩]
        (runCleanup
          [⟨"CMS_PAGE#a1", "CMS_PAGE#a1", some "a", some "t1", none⟩,
           ⟨"CMS_PAGE#a2", "CMS_PAGE#a2", some "a", some "t2", none⟩,
           ⟨"CMS_COMPONENT#c", "CMS_COMPONENT#c", none, none, some "a1"⟩]
          (fun _ _ => true)).deleteCalls)
      (fun _ _ => true)).exitCode = 0 :=
  dedup_idempotent _ (fun _ _ => true) (fun _ _ => true) (by decide)

/-- C7: when the page scan returns no records, the run prints the
no-duplicates message, exits 0, issues no delete calls and never reaches the
component scan. -/
theorem empty_scan_no_duplicates (table : List RawItem)
    (ok : String → String → Bool) (h : scanPages table = []) :
    runCleanup table ok =
      ⟨0, [], false, ["No duplicate pages found!"], []⟩ := by
  apply runCleanup_of_ptd_nil
  rw [h]
  rfl

/-- C7 witness: a table holding only a component yields an empty page scan
and the clean no-duplicates exit. -/
theorem empty_scan_no_duplicates_witness :
    runCleanup
        [⟨"CMS_COMPONENT#c", "CMS_COMPONENT#c", none, none, some "a1"⟩]
        (fun _ _ => true) =
      ⟨0, [], false, ["No duplicate pages found!"], []⟩ :=
  empty_scan_no_duplicates _ _ (by decide)

/-- C8: in the sequence of delete calls, all orphaned-component deletions
come before all duplicate-page deletions: the call list is the
component-key list followed by the page-key list. -/
theorem components_deleted_before_pages (table : List RawItem)
    (ok : String → String → Bool) :
    (runCleanup table ok).deleteCalls =
      (componentsToDelete (scanPages table) (scanComponents table)).map compKey ++
        (pagesToDelete (scanPages table)).map pageKey :=
  runCleanup_calls_eq table ok

/-! ### Claim theorems for `migrate-hero-to-slides.py` -/

/-- Rewriting a second time finds the same `title` entry the first rewrite
kept: the rewritten list starts with that entry, or contains none. -/
theorem find?_title_newEventFields (l : List CmsField) :
    (newEventFields l).find? (fun f => f.key == "title") =
      l.find? (fun f => f.key == "title") := by
  unfold newEventFields
  cases ht : l.find? (fun f => f.key == "title") with
  | some tf =>
    have htf := List.find?_some ht
    simp [Option.toList, List.find?_cons_of_pos, htf]
  | none =>
    cases hs : l.find? (fun f => f.key == "subtitle") with
    | none => rfl
    | some sf =>
      have hsf : sf.key = "subtitle" := by simpa using List.find?_some hs
      have hev : eventsField.key = "events" := rfl
      simp [Option.toList, List.find?_cons_of_neg, hsf, hev]

/-- Rewriting a second time finds the same `subtitle` entry the first
rewrite kept. -/
theorem find?_subtitle_newEventFields (l : List CmsField) :
    (newEventFields l).find? (fun f => f.key == "subtitle") =
      l.find? (fun f => f.key == "subtitle") := by
  unfold newEventFields
  cases ht : l.find? (fun f => f.key == "title") with
  | some tf =>
    have htf : tf.key = "title" := by simpa using List.find?_some ht
    cases hs : l.find? (fun f => f.key == "subtitle") with
    | none =>
      have hev : eventsField.key = "events" := rfl
      simp [Option.toList, List.find?_cons_of_neg, htf, hev]
    | some sf =>
      have hsf := List.find?_some hs
      simp [Option.toList, List.find?_cons_of_neg, List.find?_cons_of_pos,
        htf, hsf]
  | none =>
    cases hs : l.find? (fun f => f.key == "subtitle") with
    | none => rfl
    | some sf =>
      have hsf := List.find?_some hs
      simp [Option.toList, List.find?_cons_of_pos, hsf]

/-- The events rewrite is idempotent on a fields list. -/
theorem newEventFields_idem (l : List CmsField) :
    newEventFields (newEventFields l) = newEventFields l := by
  have h : newEventFields (newEventFields l) =
      ((newEventFields l).find? (fun f => f.key == "title")).toList ++
        ((newEventFields l).find? (fun f => f.key == "subtitle")).toList ++
        [eventsField] := rfl
  rw [h, find?_title_newEventFields, find?_subtitle_newEventFields]
  rfl

/-- Writing the same update twice leaves the table as after one write. -/
theorem applyUpdate_idem (t : List CompRecord) (u : UpdateCall) :
    applyUpdate (applyUpdate t u) u = applyUpdate t u := by
  unfold applyUpdate
  rw [List.map_map]
  apply List.map_congr_left
  intro c _
  by_cases h : c.pk = u.pk ∧ c.sk = u.sk
  · simp [Function.comp, h]
  · simp [Function.comp, h]

/-- C6: the migrator's per-record rewrite is idempotent — reapplying the
hero overwrite leaves the table unchanged, and rewriting an events
component's stored fields a second time (on the first rewrite's output)
yields the same final fields value. -/
theorem migrator_rewrite_idempotent (t : List CompRecord)
    (l : List CmsField) :
    applyUpdate (applyUpdate t heroUpdateCall) heroUpdateCall =
      applyUpdate t heroUpdateCall ∧
    newEventFields (newEventFields l) = newEventFields l :=
  ⟨applyUpdate_idem t heroUpdateCall, newEventFields_idem l⟩

/-- C4: every scanned component tagged `upcoming_events` gets exactly the
rewrite the claim describes — its update call is issued, the new fields list
is the existing `title` entry (if present), then the existing `subtitle`
entry (if present), then the `events` literal, and nothing else from the
old list survives. -/
theorem events_migration_rewrites_fields (table : List CompRecord)
    (c : CompRecord) (hc : c ∈ table)
    (ht : c.componentType = some "upcoming_events") :
    (UpdateCall.mk c.pk c.sk (newEventFields c.fields) ∈ migrateUpdates table) ∧
    newEventFields c.fields =
      (c.fields.find? (fun f => f.key == "title")).toList ++
        (c.fields.find? (fun f => f.key == "subtitle")).toList ++
        [eventsField] ∧
    (∀ f ∈ newEventFields c.fields,
        f = eventsField ∨
          (f ∈ c.fields ∧ (f.key = "title" ∨ f.key = "subtitle"))) := by
  refine ⟨?_, rfl, ?_⟩
  · unfold migrateUpdates
    refine List.mem_cons_of_mem _ (List.mem_map.mpr ⟨c, ?_, rfl⟩)
    exact List.mem_filter.mpr ⟨hc, by simp [ht]⟩
  · intro f hf
    unfold newEventFields at hf
    rcases List.mem_append.mp hf with hf1 | hf2
    · rcases List.mem_append.mp hf1 with hta | hsb
      · have hfind : c.fields.find? (fun g => g.key == "title") = some f :=
          Option.mem_def.mp (Option.mem_toList.mp hta)
        refine Or.inr ⟨List.mem_of_find?_eq_some hfind, Or.inl ?_⟩
        simpa using List.find?_some hfind
      · have hfind : c.fields.find? (fun g => g.key == "subtitle") = some f :=
          Option.mem_def.mp (Option.mem_toList.mp hsb)
        refine Or.inr ⟨List.mem_of_find?_eq_some hfind, Or.inr ?_⟩
        simpa using List.find?_some hfind
    · exact Or.inl (List.mem_singleton.mp hf2)

/-- C4 witness: a component with a `title` entry and a `layout` entry — its
rewrite is issued, keeping the title, dropping the layout, appending the
events literal. -/
theorem events_migration_rewrites_fields_witness :
    UpdateCall.mk "CMS_COMPONENT#e1" "CMS_COMPONENT#e1"
        (newEventFields
          [⟨"title", Val.str "Events"⟩, ⟨"layout", Val.str "grid"⟩]) ∈
      migrateUpdates
        [⟨"CMS_COMPONENT#e1", "CMS_COMPONENT#e1", some "upcoming_events",
          [⟨"title", Val.str "Events"⟩, ⟨"layout", Val.str "grid"⟩]⟩] :=
  (events_migration_rewrites_fields _ _ (List.mem_singleton.mpr rfl) rfl).1

/-- C9: a missing attribute never derails either script — a page without a
slug lands in the empty-string group, a missing timestamp compares as the
empty string, a component without a `pageId` is matched against the empty
string, and a fields list without `title`/`subtitle` entries is rewritten to
just the events literal. -/
theorem missing_attributes_defaulted :
    (∀ (pages : List PageItem) (p : PageItem), p ∈ pages → p.slug = none →
        p ∈ slugGroup pages "") ∧
    (∀ p : PageItem, p.createdAt = none → createdOf p = "") ∧
    (∀ (pages : List PageItem) (comps : List CompItem) (c : CompItem),
        c ∈ comps → c.pageId = none →
        (c ∈ componentsToDelete pages comps ↔ "" ∈ pageIdsToDelete pages)) ∧
    (∀ l : List CmsField,
        l.find? (fun f => f.key == "title") = none →
        l.find? (fun f => f.key == "subtitle") = none →
        newEventFields l = [eventsField]) := by
  refine ⟨?_, ?_, ?_, ?_⟩
  · intro pages p hp hnone
    exact mem_slugGroup.mpr ⟨hp, by simp [slugOf, hnone]⟩
  · intro p h
    simp [createdOf, h]
  · intro pages comps c hc hnone
    simp [componentsToDelete, List.mem_filter, hc, hnone]
  · intro l h1 h2
    unfold newEventFields
    rw [h1, h2]
    rfl

/-- C9 witness: a slugless page joins the empty-string group, and a fields
list with neither title nor subtitle is rewritten to the events literal
alone. -/
theorem missing_attributes_defaulted_witness :
    (⟨"CMS_PAGE#n", "CMS_PAGE#n", none, some "t"⟩ : PageItem) ∈
      slugGroup [⟨"CMS_PAGE#n", "CMS_PAGE#n", none, some "t"⟩] "" ∧
    newEventFields [⟨"layout", Val.str "grid"⟩] = [eventsField] :=
  ⟨missing_attributes_defaulted.1 _ _ (List.mem_singleton.mpr rfl) rfl,
   missing_attributes_defaulted.2.2.2 _ rfl rfl⟩
